import Mathlib

/-
Verification of the AI-Agents backend core (agent execution loop, artifact
extraction, streaming adapter, session registry, artifact store) against its
natural-language specification.  The Python source is shallowly embedded:
pure fragments become Lean functions, the in-memory registries become explicit
state values threaded through the operations, the external model call becomes
an `Except`-valued oracle parameter, and wall-clock timestamps become explicit
parameters.  Nondeterministic uuid generation is left out of the records (no
claim depends on the id values).
-/

namespace AIAgents

/-- Whitespace class used by the extraction regular expression (`\s`) and by
`str.strip`.  Python's class is Unicode-wide; the model covers its ASCII and
Latin-1 members, which is exhaustive for the tag grammar's practical inputs. -/
def isPySpace (c : Char) : Bool :=
  c = ' ' || c = '\t' || c = '\n' || c = '\r' || c = '\x0b' || c = '\x0c' ||
  c = '\x1c' || c = '\x1d' || c = '\x1e' || c = '\x1f' || c = '\x85' || c = '\xa0'

/-- Match a literal sequence of characters at the head of the input, returning
the remainder on success. -/
def expectLit : List Char → List Char → Option (List Char)
  | [], s => some s
  | _ :: _, [] => none
  | p :: ps, c :: cs => if c = p then expectLit ps cs else none

/-- Greedy `p+`: take a maximal nonempty run of characters satisfying `p`,
returning the run and the remainder (none when the run would be empty). -/
def takeWhile1 (p : Char → Bool) (s : List Char) : Option (List Char × List Char) :=
  match s.takeWhile p with
  | [] => none
  | c :: cs => some (c :: cs, s.dropWhile p)

/-- The literal pieces of the artifact tag pattern
`<artifact V type="([^V]+)"(?:V+language="([^V]+)")?(?:V+title="([^V]+)")?>(.*?)</artifact>`
(with `V` for whitespace/quote as appropriate). -/
def openTag : List Char := "<artifact".data

/-- Literal `type="`. -/
def typeAttr : List Char := "type=\"".data

/-- Literal `language="`. -/
def langAttr : List Char := "language=\"".data

/-- Literal `title="`. -/
def titleAttr : List Char := "title=\"".data

/-- Literal closing quote. -/
def quoteC : List Char := ['"']

/-- Literal `</artifact>`. -/
def closeTag : List Char := "</artifact>".data

/-- Lazy `(.*?)</artifact>`: split the input at the first occurrence of the
closing tag, returning the (shortest) body and the remainder after the tag. -/
def findBodyClose : List Char → Option (List Char × List Char)
  | [] => none
  | c :: cs =>
    match expectLit closeTag (c :: cs) with
    | some rest => some ([], rest)
    | none =>
      match findBodyClose cs with
      | some (b, r) => some (c :: b, r)
      | none => none

/-- One optional attribute group `(?:\s+name="([^"]+)")?`: on success returns
(consumed text, attribute value, remainder).  The pattern's backtracking is
deterministic here: whenever the group matches, committing to it is the only
way the overall pattern can succeed. -/
def pAttr (nameEq : List Char) (s : List Char) : Option (List Char × List Char × List Char) :=
  match takeWhile1 isPySpace s with
  | none => none
  | some (w, s1) =>
    match expectLit nameEq s1 with
    | none => none
    | some s2 =>
      match takeWhile1 (fun c => c != '"') s2 with
      | none => none
      | some (v, s3) =>
        match expectLit quoteC s3 with
        | none => none
        | some s4 => some (w ++ nameEq ++ v ++ quoteC, v, s4)

/-- Captured groups of one artifact tag match, together with the full matched
span (used to relate `re.findall` and `re.sub` to the original text). -/
structure TagMatch where
  ty : List Char
  lang : Option (List Char)
  title : Option (List Char)
  body : List Char
  span : List Char
  deriving Repr, DecidableEq

/-- Attempt to match the artifact tag pattern at the start of the input,
following the source pattern
`<artifact\s+type="([^"]+)"(?:\s+language="([^"]+)")?(?:\s+title="([^"]+)")?>(.*?)</artifact>`
with DOTALL.  All quantifiers of that pattern are deterministic (greedy runs
are delimited by characters excluded from the run; optional groups, when
matchable, are forced), so a committed parser realizes the regex semantics. -/
def pMatch (s : List Char) : Option (TagMatch × List Char) :=
  match expectLit openTag s with
  | none => none
  | some s1 =>
    match takeWhile1 isPySpace s1 with
    | none => none
    | some ws =>
      match expectLit typeAttr ws.2 with
      | none => none
      | some s3 =>
        match takeWhile1 (fun c => c != '"') s3 with
        | none => none
        | some tys =>
          match expectLit quoteC tys.2 with
          | none => none
          | some s5 =>
            let lres :=
              match pAttr langAttr s5 with
              | some t => (t.1, some t.2.1, t.2.2)
              | none => (([] : List Char), (none : Option (List Char)), s5)
            let tres :=
              match pAttr titleAttr lres.2.2 with
              | some t => (t.1, some t.2.1, t.2.2)
              | none => (([] : List Char), (none : Option (List Char)), lres.2.2)
            match expectLit ['>'] tres.2.2 with
            | none => none
            | some s8 =>
              match findBodyClose s8 with
              | none => none
              | some (body, rest) =>
                some ({ ty := tys.1, lang := lres.2.1, title := tres.2.1, body := body,
                        span := openTag ++ ws.1 ++ typeAttr ++ tys.1 ++ quoteC ++
                                lres.1 ++ tres.1 ++ ['>'] ++ body ++ closeTag },
                      rest)

/-- A segment of the scanned text: either one unmatched character or one
artifact tag match. -/
inductive Seg where
  | chr (c : Char)
  | art (m : TagMatch)
  deriving Repr, DecidableEq

/-- Left-to-right regex scan (shared by `re.findall` and `re.sub`): at each
position try the pattern; on a match consume its span, otherwise move one
character.  Fuel-indexed for structural recursion; `fuel ≥ length` suffices. -/
def scanSegsF : Nat → List Char → List Seg
  | 0, _ => []
  | _ + 1, [] => []
  | fuel + 1, c :: cs =>
    match pMatch (c :: cs) with
    | some (m, rest) => Seg.art m :: scanSegsF fuel rest
    | none => Seg.chr c :: scanSegsF fuel cs

/-- Scan a text completely into segments. -/
def scanSegs (s : List Char) : List Seg := scanSegsF s.length s

/-- Reassemble the original text from the segments. -/
def renderOrig (segs : List Seg) : List Char :=
  segs.foldr (fun sg acc => match sg with
    | Seg.chr c => c :: acc
    | Seg.art m => m.span ++ acc) []

/-- The replacement text used by `re.sub` in `_process_response`. -/
def placeholder : List Char := "[Artifact created]".data

/-- Render the segments with every matched span replaced 1:1 by the
placeholder and unmatched characters kept verbatim (the effect of `re.sub`). -/
def renderClean (segs : List Seg) : List Char :=
  segs.foldr (fun sg acc => match sg with
    | Seg.chr c => c :: acc
    | Seg.art _ => placeholder ++ acc) []

/-- `re.findall(artifact_pattern, s, re.DOTALL)`: the matches in order. -/
def findallArtifacts (s : List Char) : List TagMatch :=
  (scanSegs s).filterMap (fun sg => match sg with
    | Seg.art m => some m
    | Seg.chr _ => none)

/-- `re.sub(artifact_pattern, placeholder, s, flags=re.DOTALL)`. -/
def subArtifacts (s : List Char) : List Char := renderClean (scanSegs s)

/-- Python `str.strip()`: drop whitespace from both ends. -/
def pyStrip (cs : List Char) : List Char :=
  ((cs.dropWhile isPySpace).reverse.dropWhile isPySpace).reverse

/-- The `Artifact` dataclass of `base_agent.py` (uuid id and creation
timestamp omitted as nondeterministic externals). -/
structure Artifact where
  type : String := "text"
  title : String := ""
  content : String := ""
  language : Option String := none
  metadata : List (String × String) := []
  deriving Repr, DecidableEq

/-- Build the artifact for one tag match, given the artifacts already in the
agent's per-turn buffer: an unmatched title group (captured as the empty
string, i.e. falsy) is replaced by the auto title `Artifact {n}` with
`n = len(self.artifacts) + 1`; the body is stripped; an unmatched language
group becomes `None`. -/
def mkArtifact (arts : List Artifact) (m : TagMatch) : Artifact :=
  { type := String.mk m.ty
    title := match m.title with
             | some t => String.mk t
             | none => "Artifact " ++ toString (arts.length + 1)
    content := String.mk (pyStrip m.body)
    language := m.lang.map String.mk
    metadata := [] }

/-- `BaseAgent._process_response`: find all artifact tags, append one artifact
per match to the buffer, and return the text with every matched span replaced
by the placeholder, paired with the updated buffer. -/
def process_response (arts0 : List Artifact) (response : String) : String × List Artifact :=
  let ms := findallArtifacts response.data
  let arts := ms.foldl (fun acc m => acc ++ [mkArtifact acc m]) arts0
  (String.mk (subArtifacts response.data), arts)

/-- Numbered artifact constructor: `mkArtifact` depends on the buffer only
through its length. -/
def mkArtifactN (n : Nat) (m : TagMatch) : Artifact :=
  { type := String.mk m.ty
    title := match m.title with
             | some t => String.mk t
             | none => "Artifact " ++ toString (n + 1)
    content := String.mk (pyStrip m.body)
    language := m.lang.map String.mk
    metadata := [] }

/-- The artifacts appended for a run of matches, given the starting buffer
length. -/
def buildFrom (n : Nat) : List TagMatch → List Artifact
  | [] => []
  | m :: ms => mkArtifactN n m :: buildFrom (n + 1) ms

/-- Sample input whose opening tag lists `title` before `type`. -/
def sampleOrder1 : String := "<artifact title=\"Demo\" type=\"code\">x</artifact>"

/-- Sample input whose opening tag lists `title` before `language`. -/
def sampleOrder2 : String := "<artifact type=\"code\" title=\"Demo\" language=\"python\">x</artifact>"

/-- Sample input with two untitled artifacts. -/
def sampleTwo : String := "a<artifact type=\"text\">x</artifact>b<artifact type=\"text\">y</artifact>c"

/-- The `StepType` enum of `base_agent.py`. -/
inductive StepType where
  | thought
  | action
  | observation
  | finalAnswer
  | err
  deriving Repr, DecidableEq

/-- The `ExecutionStep` dataclass (uuid id, wall-clock timestamp and
per-step duration omitted as nondeterministic externals). -/
structure ExecutionStep where
  type : StepType := StepType.thought
  content : String := ""
  tool_name : Option String := none
  tool_output : Option String := none
  deriving Repr, DecidableEq

/-- The `AgentResponse` dataclass. -/
structure AgentResponse where
  session_id : String
  success : Bool
  message : String
  steps : List ExecutionStep := []
  artifacts : List Artifact := []
  total_duration_ms : Nat := 0
  iteration_count : Nat := 0
  deriving Repr, DecidableEq

/-- The initial THOUGHT step appended by `_run_react_loop` (and by the
streaming path) before delegating to the model. -/
def thoughtStep (user_message : String) : ExecutionStep :=
  { type := StepType.thought, content := "Analyzing request: " ++ user_message }

/-- `BaseAgent.execute`: the delegated model call `self.agent.run(...)` is an
external collaborator, embedded as an `Except`-valued oracle argument
(`Except.error e` models an exception with text `e` raised during delegation;
extraction itself is total).  The wall-clock duration is likewise an
argument.  The per-turn buffers are reset at the start of the call, so the
embedding starts from empty step/artifact lists.  On success the response
carries the cleaned message, the THOUGHT and FINAL_ANSWER steps, the
extracted artifacts and `iteration_count = len([s for s in steps if s.type
== ACTION])`; on failure the exception is caught, an ERROR step is appended
and a `success=false` response is returned (never re-raised). -/
def execute (user_message : String) (session_id : String)
    (modelResult : Except String String) (duration_ms : Nat) : AgentResponse :=
  match modelResult with
  | Except.ok content =>
    let pr := process_response [] content
    let steps := [thoughtStep user_message,
                  { type := StepType.finalAnswer, content := pr.1 }]
    { session_id := session_id
      success := true
      message := pr.1
      steps := steps
      artifacts := pr.2
      total_duration_ms := duration_ms
      iteration_count := (steps.filter (fun s => s.type = StepType.action)).length }
  | Except.error e =>
    let steps := [thoughtStep user_message,
                  { type := StepType.err, content := e }]
    { session_id := session_id
      success := false
      message := "Error during execution: " ++ e
      steps := steps
      artifacts := []
      total_duration_ms := duration_ms
      iteration_count := (steps.filter (fun s => s.type = StepType.action)).length }

/-- Events yielded by `BaseAgent.stream_execute`. -/
inductive StreamEvent where
  | start (session_id : String)
  | step (s : ExecutionStep)
  | token (content : String)
  | artifact (a : Artifact)
  | complete (session_id : String) (success : Bool) (total_duration_ms : Nat)
  | err (message : String)
  deriving Repr, DecidableEq

/-- `BaseAgent.stream_execute`: the model's token stream is embedded as the
list of chunks the external stream yields, together with an optional
exception raised after those chunks (`none` = the stream ends normally).
The generator emits `start`, the THOUGHT `step`, one `token` event per chunk
in order while accumulating `response_content`, then (on success) runs
extraction over the reassembled text, emits one `artifact` event per
extracted artifact, the FINAL_ANSWER `step`, and a terminal `complete`; on a
failure the `except` clause emits a single `err` event in place of all
remaining events. -/
def stream_execute (user_message : String) (session_id : String)
    (chunks : List String) (streamFail : Option String) (duration_ms : Nat) :
    List StreamEvent :=
  let pre := [StreamEvent.start session_id, StreamEvent.step (thoughtStep user_message)]
  match streamFail with
  | some e => pre ++ chunks.map StreamEvent.token ++ [StreamEvent.err e]
  | none =>
    let response_content := chunks.foldl (fun acc c => acc ++ c) ""
    let pr := process_response [] response_content
    pre ++ chunks.map StreamEvent.token
        ++ pr.2.map StreamEvent.artifact
        ++ [StreamEvent.step { type := StepType.finalAnswer, content := pr.1 },
            StreamEvent.complete session_id true duration_ms]

/-- Discriminator for `token` events. -/
def isToken : StreamEvent → Bool
  | StreamEvent.token _ => true
  | _ => false

/-- Discriminator for `artifact` events. -/
def isArtifactEv : StreamEvent → Bool
  | StreamEvent.artifact _ => true
  | _ => false

/-- Discriminator for the FINAL_ANSWER step event and the terminal
`complete` event. -/
def isFinalOrComplete : StreamEvent → Bool
  | StreamEvent.step s => s.type = StepType.finalAnswer
  | StreamEvent.complete _ _ _ => true
  | _ => false

/-- Discriminator for `err` events. -/
def isErrEv : StreamEvent → Bool
  | StreamEvent.err _ => true
  | _ => false

/-- Accumulate the content of a `token` event (mirrors
`response_content += chunk`). -/
def tokenStep (acc : String) (ev : StreamEvent) : String :=
  match ev with
  | StreamEvent.token c => acc ++ c
  | _ => acc

/-- Concatenation of the contents of the `token` events of an event list, in
emission order. -/
def tokenConcat (evs : List StreamEvent) : String :=
  evs.foldl tokenStep ""

/-- Python `dict.update(new)` on an association list: existing keys keep
their position but take the new value; keys only in `new` are appended. -/
def dictUpdate (old new : List (String × String)) : List (String × String) :=
  old.map (fun kv => (kv.1, (List.lookup kv.1 new).getD kv.2))
  ++ new.filter (fun kv => (List.lookup kv.1 old).isNone)

/-- Heap of metadata dictionaries, for the aliasing behaviour of
`Artifact.to_dict`: a dict value in Python is a mutable object passed by
reference, modelled as an index into this heap. -/
structure MetaHeap where
  cells : List (List (String × String))
  deriving Repr, DecidableEq

/-- Dereference a metadata mapping. -/
def readCell (h : MetaHeap) (r : Nat) : List (String × String) :=
  h.cells.getD r []

/-- Overwrite a metadata mapping in place. -/
def writeCell (h : MetaHeap) (r : Nat) (v : List (String × String)) : MetaHeap :=
  { cells := h.cells.set r v }

/-- The canonical `Artifact` record as held by the producer: scalar fields by
value, the metadata dict by reference. -/
structure ArtifactObj where
  id : String
  type : String
  title : String
  content : String
  language : Option String
  metaRef : Nat
  deriving Repr, DecidableEq

/-- The dict built by `Artifact.to_dict()` and stored into the session's
artifact list: a fresh top-level dict whose scalar entries are copies of the
field values but whose `metadata` entry is the same dict object as the
artifact's (`"metadata": self.metadata` copies the reference, not the
mapping). -/
structure ArtifactSnap where
  id : String
  type : String
  title : String
  content : String
  language : Option String
  metaRef : Nat
  deriving Repr, DecidableEq

/-- `Artifact.to_dict` of `base_agent.py`. -/
def artifactToDict (a : ArtifactObj) : ArtifactSnap :=
  { id := a.id, type := a.type, title := a.title, content := a.content,
    language := a.language, metaRef := a.metaRef }

/-- An in-place merge into the canonical artifact's metadata dict
(`artifact.metadata.update(md)`, as the store's update operation performs). -/
def metaUpdateInPlace (h : MetaHeap) (a : ArtifactObj) (md : List (String × String)) :
    MetaHeap :=
  writeCell h a.metaRef (dictUpdate (readCell h a.metaRef) md)

/-- The metadata mapping a stored snapshot presents when read. -/
def snapMeta (h : MetaHeap) (d : ArtifactSnap) : List (String × String) :=
  readCell h d.metaRef

/-- One message of a session's history (`routes.py`). -/
structure ChatMsg where
  role : String
  content : String
  timestamp : String
  deriving Repr, DecidableEq

/-- One record of the `sessions` registry of `routes.py` (artifact snapshots
modelled by value here; the snapshot aliasing is treated by the heap model
above). -/
structure Session where
  id : String
  created_at : String
  messages : List ChatMsg
  artifacts : List Artifact
  last_activity : Option String
  deriving Repr, DecidableEq

/-- Lookup of a session record by id. -/
def lookupSession (reg : List (String × Session)) (sid : String) : Option Session :=
  List.lookup sid reg

/-- A freshly created session record with empty histories. -/
def freshSession (sid now : String) : Session :=
  { id := sid, created_at := now, messages := [], artifacts := [],
    last_activity := none }

/-- The create-if-absent block of the chat handler: a new record with the
current time as `created_at` and empty histories is inserted only when the
id is not yet a key of the registry. -/
def initSessionIfAbsent (reg : List (String × Session)) (sid : String) (now : String) :
    List (String × Session) :=
  if (List.lookup sid reg).isSome then reg
  else reg ++ [(sid, freshSession sid now)]

/-- Update the record stored under a session id. -/
def modifySession (reg : List (String × Session)) (sid : String) (f : Session → Session) :
    List (String × Session) :=
  reg.map (fun p => if p.1 = sid then (p.1, f p.2) else p)

/-- The session bookkeeping of one `POST /api/chat` turn (`routes.py`):
create-if-absent, append the user message, run the agent (its response is
the `resp` argument), append the assistant message and the artifact
snapshots, and bump `last_activity`.  The four timestamps are the successive
`datetime.now()` reads. -/
def chatTurnSessions (reg : List (String × Session)) (sid : String)
    (userContent : String) (resp : AgentResponse)
    (tInit tUser tAssistant tLast : String) : List (String × Session) :=
  let reg1 := initSessionIfAbsent reg sid tInit
  let reg2 := modifySession reg1 sid (fun s =>
    { s with messages := s.messages
        ++ [{ role := "user", content := userContent, timestamp := tUser }] })
  let reg3 := modifySession reg2 sid (fun s =>
    { s with messages := s.messages
        ++ [{ role := "assistant", content := resp.message, timestamp := tAssistant }] })
  let reg4 := modifySession reg3 sid (fun s =>
    { s with artifacts := s.artifacts ++ resp.artifacts })
  modifySession reg4 sid (fun s => { s with last_activity := some tLast })

/-- The `ArtifactData` dataclass of `artifact_manager.py` (uuid id passed
explicitly; timestamps as abstract clock readings — `created_at` as a
comparable instant, `updated_at` likewise; metadata values as strings,
opaque to the store). -/
structure ArtifactData where
  id : String
  type : String := "text"
  title : String := ""
  content : String := ""
  language : Option String := none
  session_id : Option String := none
  metadata : List (String × String) := []
  created_at : Nat := 0
  updated_at : Nat := 0
  deriving Repr, DecidableEq

/-- Stable insertion step of Python's `sorted(..., key=lambda a:
a.created_at, reverse=True)`: an element moves ahead only of strictly
smaller keys, so equal keys keep their original order. -/
def insertByCreatedDesc (a : ArtifactData) : List ArtifactData → List ArtifactData
  | [] => [a]
  | b :: bs =>
    if b.created_at < a.created_at then a :: b :: bs
    else b :: insertByCreatedDesc a bs

/-- Python's stable descending sort by `created_at`. -/
def pySortDesc (l : List ArtifactData) : List ArtifactData :=
  l.foldl (fun acc a => insertByCreatedDesc a acc) []

/-- Python truthiness of an `Optional[str]`: `None` and the empty string are
falsy. -/
def truthyOpt : Option String → Bool
  | none => false
  | some s => !(s == "")

namespace ArtifactManager

/-- `ArtifactManager.update`: the store is the values of the id-keyed
`self.artifacts` dict in insertion order (ids are unique by construction).
Content and title are replaced only when provided, metadata is merged in
place key-wise, `updated_at` is always refreshed; an unknown id returns
`none` and leaves the store untouched. -/
def update (store : List ArtifactData) (aid : String)
    (content : Option String) (title : Option String)
    (metadata : Option (List (String × String))) (now : Nat) :
    Option ArtifactData × List ArtifactData :=
  match store.find? (fun a => a.id == aid) with
  | none => (none, store)
  | some a =>
    let a2 : ArtifactData :=
      { a with
        content := content.getD a.content
        title := title.getD a.title
        metadata := match metadata with
                    | some md => dictUpdate a.metadata md
                    | none => a.metadata
        updated_at := now }
    (some a2, store.map (fun b => if b.id == aid then a2 else b))

/-- `ArtifactManager.list_all`: optionally filter by session (a Python
truthiness test, so the empty string disables the filter), then sort by
creation time descending. -/
def list_all (store : List ArtifactData) (session_id : Option String) :
    List ArtifactData :=
  let artifacts :=
    if truthyOpt session_id then store.filter (fun a => a.session_id == session_id)
    else store
  pySortDesc artifacts

end ArtifactManager

/-- A value of the dict returned by `ArtifactManager.export_session`
(`a.to_dict()` is a field-for-field rendering of `ArtifactData`, modelled by
the record itself). -/
inductive ExportVal where
  | str (s : String)
  | nat (n : Nat)
  | arts (l : List ArtifactData)
  deriving Repr, DecidableEq

namespace ArtifactManager

/-- `ArtifactManager.export_session`: the returned dict, as its ordered list
of key/value entries. -/
def export_session (store : List ArtifactData) (session_id : String)
    (nowIso : String) : List (String × ExportVal) :=
  let artifacts := list_all store (some session_id)
  [("session_id", ExportVal.str session_id),
   ("artifact_count", ExportVal.nat artifacts.length),
   ("artifacts", ExportVal.arts artifacts),
   ("exported_at", ExportVal.str nowIso)]

end ArtifactManager

/-- Concrete canonical artifact for the snapshot scenarios. -/
def sampleObjA : ArtifactObj :=
  { id := "a1", type := "text", title := "t", content := "c",
    language := none, metaRef := 0 }

/-- Concrete one-cell metadata heap for the snapshot scenarios. -/
def sampleHeap : MetaHeap := { cells := [[("k", "old")]] }

/-- Concrete artifact belonging to session `x`, for the export scenarios. -/
def sampleArtifactX : ArtifactData := { id := "ax", session_id := some "x" }

/-- The pydantic validation of `ChatMessage.content`:
`Field(..., min_length=1, max_length=10000)` counted in characters. -/
def validChatContent (content : String) : Bool :=
  decide (1 ≤ content.length) && decide (content.length ≤ 10000)

/-- Result of one `POST /api/chat` request at the HTTP boundary. -/
inductive ChatHttpResult where
  | validationError
  | ok (resp : AgentResponse) (reg : List (String × Session))

/-- `POST /api/chat` including the request-model validation that the web
framework performs before the handler body runs: an invalid `content` is
rejected as a validation error and the handler (and hence the agent
execution loop, abstracted as the `agentRun` oracle) is never entered;
otherwise the handler performs the session bookkeeping and returns the
agent's response. -/
def postChat (agentRun : String → AgentResponse) (reg : List (String × Session))
    (content : String) (sid : String)
    (ts : String × String × String × String) : ChatHttpResult :=
  if validChatContent content then
    let resp := agentRun content
    ChatHttpResult.ok resp
      (chatTurnSessions reg sid content resp ts.1 ts.2.1 ts.2.2.1 ts.2.2.2)
  else ChatHttpResult.validationError

theorem mkArtifact_eq (arts : List Artifact) (m : TagMatch) :
    mkArtifact arts m = mkArtifactN arts.length m := rfl

theorem foldl_mkArtifact_eq :
    ∀ (ms : List TagMatch) (acc : List Artifact),
      ms.foldl (fun a m => a ++ [mkArtifact a m]) acc = acc ++ buildFrom acc.length ms := by
  intro ms
  induction ms with
  | nil => intro acc; simp [buildFrom]
  | cons m ms ih =>
    intro acc
    have h1 := ih (acc ++ [mkArtifact acc m])
    simp only [List.foldl_cons]
    rw [h1]
    simp [buildFrom, mkArtifact_eq, List.append_assoc]

theorem buildFrom_length : ∀ (ms : List TagMatch) (n : Nat), (buildFrom n ms).length = ms.length := by
  intro ms
  induction ms with
  | nil => intro n; rfl
  | cons m ms ih => intro n; simp [buildFrom, ih]

theorem buildFrom_getElem :
    ∀ (ms : List TagMatch) (n i : Nat) (h : i < ms.length),
      (buildFrom n ms)[i]? = some (mkArtifactN (n + i) ms[i]) := by
  intro ms
  induction ms with
  | nil => intro n i h; exact absurd h (by simp)
  | cons m ms ih =>
    intro n i h
    cases i with
    | zero => simp [buildFrom]
    | succ j =>
      have hj : j < ms.length := by simpa using Nat.lt_of_succ_lt_succ h
      have := ih (n + 1) j hj
      simp only [buildFrom, List.getElem?_cons_succ, this]
      have : n + 1 + j = n + (j + 1) := by omega
      rw [this]
      simp

theorem expectLit_eq :
    ∀ (lit s r : List Char), expectLit lit s = some r → s = lit ++ r := by
  intro lit
  induction lit with
  | nil =>
    intro s r h
    simp only [expectLit, Option.some.injEq] at h
    simp [h]
  | cons p ps ih =>
    intro s r h
    cases s with
    | nil => simp [expectLit] at h
    | cons c cs =>
      simp only [expectLit] at h
      by_cases hc : c = p
      · rw [if_pos hc] at h
        have := ih cs r h
        simp [hc, this]
      · rw [if_neg hc] at h
        exact absurd h (by simp)

theorem takeWhile1_eq {p : Char → Bool} {s t r : List Char}
    (h : takeWhile1 p s = some (t, r)) : s = t ++ r ∧ t ≠ [] := by
  unfold takeWhile1 at h
  cases htw : s.takeWhile p with
  | nil => simp [htw] at h
  | cons c cs =>
    simp only [htw, Option.some.injEq, Prod.mk.injEq] at h
    obtain ⟨ht, hr⟩ := h
    subst hr
    refine ⟨?_, ?_⟩
    · conv_lhs => rw [← List.takeWhile_append_dropWhile p s]
      rw [htw, ht]
    · rw [← ht]; exact List.cons_ne_nil c cs

theorem findBodyClose_eq :
    ∀ (s b r : List Char), findBodyClose s = some (b, r) → s = b ++ closeTag ++ r := by
  intro s
  induction s with
  | nil => intro b r h; simp [findBodyClose] at h
  | cons c cs ih =>
    intro b r h
    simp only [findBodyClose] at h
    cases he : expectLit closeTag (c :: cs) with
    | some rest =>
      rw [he] at h
      simp only [Option.some.injEq, Prod.mk.injEq] at h
      obtain ⟨hb, hr⟩ := h
      have := expectLit_eq closeTag (c :: cs) rest he
      simp [← hb, ← hr, this]
    | none =>
      rw [he] at h
      cases hf : findBodyClose cs with
      | some br =>
        obtain ⟨b1, r1⟩ := br
        rw [hf] at h
        simp only [Option.some.injEq, Prod.mk.injEq] at h
        obtain ⟨hb, hr⟩ := h
        have := ih b1 r1 hf
        simp [← hb, ← hr, this]
      | none => rw [hf] at h; exact absurd h (by simp)

theorem pAttr_eq {nameEq s c v r : List Char}
    (h : pAttr nameEq s = some (c, v, r)) : s = c ++ r := by
  unfold pAttr at h
  cases h1 : takeWhile1 isPySpace s with
  | none => simp [h1] at h
  | some ws =>
    obtain ⟨w, s1⟩ := ws
    simp only [h1] at h
    cases h2 : expectLit nameEq s1 with
    | none => simp [h2] at h
    | some s2 =>
      simp only [h2] at h
      cases h3 : takeWhile1 (fun ch => ch != '"') s2 with
      | none => simp [h3] at h
      | some vs =>
        obtain ⟨v1, s3⟩ := vs
        simp only [h3] at h
        cases h4 : expectLit quoteC s3 with
        | none => simp [h4] at h
        | some s4 =>
          simp only [h4, Option.some.injEq, Prod.mk.injEq] at h
          obtain ⟨hc, hv, hr⟩ := h
          have e1 := (takeWhile1_eq h1).1
          have e2 := expectLit_eq nameEq s1 s2 h2
          have e3 := (takeWhile1_eq h3).1
          have e4 := expectLit_eq quoteC s3 s4 h4
          subst hc hv hr
          simp [e1, e2, e3, e4, List.append_assoc]

theorem pMatch_eq :
    ∀ {s : List Char} {m : TagMatch} {rest : List Char},
      pMatch s = some (m, rest) → s = m.span ++ rest ∧ rest.length < s.length := by
  intro s m rest h
  unfold pMatch at h
  cases h0 : expectLit openTag s with
  | none => simp [h0] at h
  | some s1 =>
    simp only [h0] at h
    cases h1 : takeWhile1 isPySpace s1 with
    | none => simp [h1] at h
    | some ws =>
      simp only [h1] at h
      cases h2 : expectLit typeAttr ws.2 with
      | none => simp [h2] at h
      | some s3 =>
        simp only [h2] at h
        cases h3 : takeWhile1 (fun c => c != '"') s3 with
        | none => simp [h3] at h
        | some tys =>
          simp only [h3] at h
          cases h4 : expectLit quoteC tys.2 with
          | none => simp [h4] at h
          | some s5 =>
            simp only [h4] at h
            have e0 := expectLit_eq openTag s s1 h0
            have e1 := (takeWhile1_eq h1).1
            have e2 := expectLit_eq typeAttr ws.2 s3 h2
            have e3 := (takeWhile1_eq h3).1
            have e4 := expectLit_eq quoteC tys.2 s5 h4
            cases h5 : pAttr langAttr s5 with
            | some lt =>
              simp only [h5] at h
              have e5 := @pAttr_eq langAttr s5 lt.1 lt.2.1 lt.2.2 (by rw [h5])
              cases h6 : pAttr titleAttr lt.2.2 with
              | some tt =>
                simp only [h6] at h
                have e6 := @pAttr_eq titleAttr lt.2.2 tt.1 tt.2.1 tt.2.2 (by rw [h6])
                cases h7 : expectLit ['>'] tt.2.2 with
                | none => simp [h7] at h
                | some s8 =>
                  simp only [h7] at h
                  have e7 := expectLit_eq ['>'] tt.2.2 s8 h7
                  cases h8 : findBodyClose s8 with
                  | none => simp [h8] at h
                  | some br =>
                    obtain ⟨body, r8⟩ := br
                    simp only [h8, Option.some.injEq, Prod.mk.injEq] at h
                    obtain ⟨hm, hrest⟩ := h
                    have e8 := findBodyClose_eq s8 body r8 h8
                    subst hm hrest
                    refine ⟨?_, ?_⟩
                    · simp only []
                      rw [e0, e1, e2, e3, e4, e5, e6, e7, e8]
                      simp [List.append_assoc]
                    · have h9 : openTag.length = 9 := by decide
                      rw [e0, e1, e2, e3, e4, e5, e6, e7, e8]
                      simp only [List.length_append]
                      omega
              | none =>
                simp only [h6] at h
                cases h7 : expectLit ['>'] lt.2.2 with
                | none => simp [h7] at h
                | some s8 =>
                  simp only [h7] at h
                  have e7 := expectLit_eq ['>'] lt.2.2 s8 h7
                  cases h8 : findBodyClose s8 with
                  | none => simp [h8] at h
                  | some br =>
                    obtain ⟨body, r8⟩ := br
                    simp only [h8, Option.some.injEq, Prod.mk.injEq] at h
                    obtain ⟨hm, hrest⟩ := h
                    have e8 := findBodyClose_eq s8 body r8 h8
                    subst hm hrest
                    refine ⟨?_, ?_⟩
                    · simp only []
                      rw [e0, e1, e2, e3, e4, e5, e7, e8]
                      simp [List.append_assoc]
                    · have h9 : openTag.length = 9 := by decide
                      rw [e0, e1, e2, e3, e4, e5, e7, e8]
                      simp only [List.length_append]
                      omega
            | none =>
              simp only [h5] at h
              cases h6 : pAttr titleAttr s5 with
              | some tt =>
                simp only [h6] at h
                have e6 := @pAttr_eq titleAttr s5 tt.1 tt.2.1 tt.2.2 (by rw [h6])
                cases h7 : expectLit ['>'] tt.2.2 with
                | none => simp [h7] at h
                | some s8 =>
                  simp only [h7] at h
                  have e7 := expectLit_eq ['>'] tt.2.2 s8 h7
                  cases h8 : findBodyClose s8 with
                  | none => simp [h8] at h
                  | some br =>
                    obtain ⟨body, r8⟩ := br
                    simp only [h8, Option.some.injEq, Prod.mk.injEq] at h
                    obtain ⟨hm, hrest⟩ := h
                    have e8 := findBodyClose_eq s8 body r8 h8
                    subst hm hrest
                    refine ⟨?_, ?_⟩
                    · simp only []
                      rw [e0, e1, e2, e3, e4, e6, e7, e8]
                      simp [List.append_assoc]
                    · have h9 : openTag.length = 9 := by decide
                      rw [e0, e1, e2, e3, e4, e6, e7, e8]
                      simp only [List.length_append]
                      omega
              | none =>
                simp only [h6] at h
                cases h7 : expectLit ['>'] s5 with
                | none => simp [h7] at h
                | some s8 =>
                  simp only [h7] at h
                  have e7 := expectLit_eq ['>'] s5 s8 h7
                  cases h8 : findBodyClose s8 with
                  | none => simp [h8] at h
                  | some br =>
                    obtain ⟨body, r8⟩ := br
                    simp only [h8, Option.some.injEq, Prod.mk.injEq] at h
                    obtain ⟨hm, hrest⟩ := h
                    have e8 := findBodyClose_eq s8 body r8 h8
                    subst hm hrest
                    refine ⟨?_, ?_⟩
                    · simp only []
                      rw [e0, e1, e2, e3, e4, e7, e8]
                      simp [List.append_assoc]
                    · have h9 : openTag.length = 9 := by decide
                      rw [e0, e1, e2, e3, e4, e7, e8]
                      simp only [List.length_append]
                      omega

theorem renderOrig_cons_chr (c : Char) (l : List Seg) :
    renderOrig (Seg.chr c :: l) = c :: renderOrig l := rfl

theorem renderOrig_cons_art (m : TagMatch) (l : List Seg) :
    renderOrig (Seg.art m :: l) = m.span ++ renderOrig l := rfl

/-- The scan is lossless: reassembling the segments (unmatched characters and
matched spans) gives back the input text. -/
theorem scanSegsF_orig :
    ∀ (fuel : Nat) (s : List Char), s.length ≤ fuel → renderOrig (scanSegsF fuel s) = s := by
  intro fuel
  induction fuel with
  | zero =>
    intro s h
    have hs : s = [] := List.length_eq_zero.mp (Nat.le_zero.mp h)
    subst hs; rfl
  | succ n ih =>
    intro s h
    cases s with
    | nil => rfl
    | cons c cs =>
      simp only [scanSegsF]
      cases hm : pMatch (c :: cs) with
      | none =>
        simp only [renderOrig_cons_chr]
        have hcs : cs.length ≤ n := by simp only [List.length_cons] at h; omega
        rw [ih cs hcs]
      | some mr =>
        obtain ⟨m, rest⟩ := mr
        obtain ⟨he, hlt⟩ := pMatch_eq hm
        simp only [renderOrig_cons_art]
        have hr : rest.length ≤ n := by
          simp only [List.length_cons] at hlt h; omega
        rw [ih rest hr]
        exact he.symm

theorem scanSegs_orig (s : List Char) : renderOrig (scanSegs s) = s :=
  scanSegsF_orig s.length s le_rfl

/-- C1: for every input text, extraction is a segmentation of the text into
unmatched characters and matched artifact-tag spans: reassembling the
segments with their original spans gives back the text verbatim
(non-matched text preserved), the cleaned message is the same segmentation
with every matched span replaced 1:1 by the literal placeholder
`[Artifact created]`, and the number of artifacts appended to the turn's
buffer equals the number of tag matches. -/
theorem claim_C1_extraction_clean_and_count (s : String) (arts0 : List Artifact) :
    renderOrig (scanSegs s.data) = s.data
    ∧ (process_response arts0 s).1 = String.mk (renderClean (scanSegs s.data))
    ∧ (process_response arts0 s).2.length
        = arts0.length + (findallArtifacts s.data).length := by
  refine ⟨scanSegs_orig s.data, rfl, ?_⟩
  simp only [process_response]
  rw [foldl_mkArtifact_eq]
  simp [buildFrom_length]

/-- C2: the i-th artifact produced by extraction (`i` 0-based) has kind equal
to the i-th tag's `type` attribute, title equal to the `title` attribute or
the auto title `Artifact {i+1}` when absent, content equal to the tag body
with surrounding whitespace stripped, and language exactly when the
`language` attribute is present; moreover opening tags whose attributes
deviate from the fixed order (`type`, then optional `language`, then
optional `title`) are not recognized and pass through as plain text, and for
the two-untitled-artifact input the auto titles are `Artifact 1` and
`Artifact 2`. -/
theorem claim_C2_artifact_fields (s : String) (i : Nat)
    (h : i < (findallArtifacts s.data).length) :
    (∃ a, (process_response [] s).2[i]? = some a
      ∧ a.type = String.mk ((findallArtifacts s.data)[i]).ty
      ∧ a.title = (match ((findallArtifacts s.data)[i]).title with
                   | some t => String.mk t
                   | none => "Artifact " ++ toString (i + 1))
      ∧ a.content = String.mk (pyStrip ((findallArtifacts s.data)[i]).body)
      ∧ a.language = ((findallArtifacts s.data)[i]).lang.map String.mk)
    ∧ findallArtifacts sampleOrder1.data = []
    ∧ subArtifacts sampleOrder1.data = sampleOrder1.data
    ∧ findallArtifacts sampleOrder2.data = []
    ∧ subArtifacts sampleOrder2.data = sampleOrder2.data
    ∧ (process_response [] sampleTwo).2.map Artifact.title = ["Artifact 1", "Artifact 2"] := by
  refine ⟨?_, by decide, by decide, by decide, by decide, by decide⟩
  refine ⟨mkArtifactN i ((findallArtifacts s.data)[i]), ?_, rfl, ?_, rfl, rfl⟩
  · simp only [process_response]
    rw [foldl_mkArtifact_eq]
    simpa using buildFrom_getElem (findallArtifacts s.data) 0 i h
  · rfl

/-- Witness for C2 at a concrete input with one untitled artifact tag. -/
theorem claim_C2_artifact_fields_witness :
    0 < (findallArtifacts "x<artifact type=\"t\">b</artifact>".data).length
    ∧ ∃ a, (process_response [] "x<artifact type=\"t\">b</artifact>").2[0]? = some a
        ∧ a.title = "Artifact 1" := by
  refine ⟨by decide, ?_⟩
  obtain ⟨⟨a, ha, _, ht, _, _⟩, _⟩ :=
    claim_C2_artifact_fields "x<artifact type=\"t\">b</artifact>" 0 (by decide)
  exact ⟨a, ha, by rw [ht]; decide⟩

/-- C3: when the delegated model call (or anything else inside the turn,
embedded as the `Except.error` branch of the delegation oracle) raises an
error, `execute` catches it: it returns — rather than re-raises — a
`success=false` response whose message carries the error text, and an ERROR
step is appended as the last entry of the step list.  Totality of the Lean
function `execute` renders the never-re-raised part: every invocation
returns an `AgentResponse`. -/
theorem claim_C3_error_caught (um sid e : String) (d : Nat) :
    (execute um sid (Except.error e) d).success = false
    ∧ (execute um sid (Except.error e) d).message = "Error during execution: " ++ e
    ∧ (execute um sid (Except.error e) d).steps.getLast?
        = some { type := StepType.err, content := e }
    ∧ (execute um sid (Except.error e) d).steps
        = [thoughtStep um, { type := StepType.err, content := e }] :=
  ⟨rfl, rfl, rfl, rfl⟩

/-- C9: every `execute` call that returns successfully reports an
`iteration_count` equal to the number of ACTION-kind steps in its step
list. -/
theorem claim_C9_iteration_count (um sid : String) (mr : Except String String) (d : Nat)
    (h : (execute um sid mr d).success = true) :
    (execute um sid mr d).iteration_count
      = ((execute um sid mr d).steps.filter
          (fun s => s.type = StepType.action)).length := by
  cases mr <;> rfl

theorem precedes_across_append {α : Type} (l1 l2 : List α) (P Q : α → Bool)
    (hP : ∀ a ∈ l2, P a = false) (hQ : ∀ a ∈ l1, Q a = false) :
    ∀ (i j : Nat) (hi : i < (l1 ++ l2).length) (hj : j < (l1 ++ l2).length),
      P ((l1 ++ l2)[i]) = true → Q ((l1 ++ l2)[j]) = true → i < j := by
  intro i j hi hj hPi hQj
  have hi1 : i < l1.length := by
    by_contra hge
    push_neg at hge
    have hmem : (l1 ++ l2)[i] ∈ l2 := by
      rw [List.getElem_append_right hge]
      exact List.getElem_mem _
    have hfalse := hP _ hmem
    rw [hPi] at hfalse
    simp at hfalse
  have hj1 : l1.length ≤ j := by
    by_contra hlt
    push_neg at hlt
    have hmem : (l1 ++ l2)[j] ∈ l1 := by
      rw [List.getElem_append_left hlt]
      exact List.getElem_mem _
    have hfalse := hQ _ hmem
    rw [hQj] at hfalse
    simp at hfalse
  omega

theorem tokenStep_eq_of_not_token {a : StreamEvent} (ha : isToken a = false)
    (acc : String) : tokenStep acc a = acc := by
  cases a <;> simp [isToken, tokenStep] at ha ⊢

theorem foldl_tokenStep_no_token :
    ∀ (l : List StreamEvent), (∀ a ∈ l, isToken a = false) →
      ∀ acc : String, l.foldl tokenStep acc = acc := by
  intro l
  induction l with
  | nil => intro _ _; rfl
  | cons a as ih =>
    intro h acc
    have ha := h a (List.mem_cons_self a as)
    rw [List.foldl_cons, tokenStep_eq_of_not_token ha]
    exact ih (fun x hx => h x (List.mem_cons_of_mem _ hx)) acc

theorem foldl_tokenStep_map_token :
    ∀ (chunks : List String) (acc : String),
      (chunks.map StreamEvent.token).foldl tokenStep acc
        = chunks.foldl (fun a c => a ++ c) acc := by
  intro chunks
  induction chunks with
  | nil => intro _; rfl
  | cons c cs ih =>
    intro acc
    simp only [List.map_cons, List.foldl_cons, tokenStep]
    exact ih (acc ++ c)

/-- Shape of a successful streaming turn: the event list is the start/thought
prelude, then the token events, then the artifact events, then the
FINAL_ANSWER step and the terminal complete event. -/
theorem stream_execute_success_shape (um sid : String) (chunks : List String) (d : Nat) :
    ∃ (arts : List Artifact) (fs : ExecutionStep),
      stream_execute um sid chunks none d
        = ([StreamEvent.start sid, StreamEvent.step (thoughtStep um)]
            ++ chunks.map StreamEvent.token)
          ++ (arts.map StreamEvent.artifact
              ++ [StreamEvent.step fs, StreamEvent.complete sid true d])
      ∧ fs.type = StepType.finalAnswer := by
  refine ⟨(process_response [] (chunks.foldl (fun a c => a ++ c) "")).2,
          { type := StepType.finalAnswer,
            content := (process_response [] (chunks.foldl (fun a c => a ++ c) "")).1 },
          ?_, rfl⟩
  simp [stream_execute, List.append_assoc]

/-- C4: in a single streaming turn, every token event precedes every artifact
event, every artifact event precedes the FINAL_ANSWER step event and the
terminal complete event, the concatenation of the token contents in emission
order equals the reassembled raw response text that extraction runs over,
the turn ends with the complete event — and on a failure raised after the
streamed chunks, the sequence ends with a single error event and contains no
artifact, FINAL_ANSWER or complete events at all. -/
theorem claim_C4_stream_event_order (um sid : String) (chunks : List String) (d : Nat) :
    (∀ (i j : Nat) (hi : i < (stream_execute um sid chunks none d).length)
       (hj : j < (stream_execute um sid chunks none d).length),
       isToken ((stream_execute um sid chunks none d)[i]) = true →
       isArtifactEv ((stream_execute um sid chunks none d)[j]) = true → i < j)
    ∧ (∀ (i j : Nat) (hi : i < (stream_execute um sid chunks none d).length)
       (hj : j < (stream_execute um sid chunks none d).length),
       isArtifactEv ((stream_execute um sid chunks none d)[i]) = true →
       isFinalOrComplete ((stream_execute um sid chunks none d)[j]) = true → i < j)
    ∧ tokenConcat (stream_execute um sid chunks none d)
        = chunks.foldl (fun acc c => acc ++ c) ""
    ∧ (stream_execute um sid chunks none d).getLast?
        = some (StreamEvent.complete sid true d)
    ∧ ∀ e : String,
        (stream_execute um sid chunks (some e) d).getLast? = some (StreamEvent.err e)
        ∧ (stream_execute um sid chunks (some e) d).filter isErrEv = [StreamEvent.err e]
        ∧ ∀ ev ∈ stream_execute um sid chunks (some e) d,
            isArtifactEv ev = false ∧ isFinalOrComplete ev = false := by
  obtain ⟨arts, fs, hsh, hfs⟩ := stream_execute_success_shape um sid chunks d
  have hTokFree : ∀ a ∈ arts.map StreamEvent.artifact
      ++ [StreamEvent.step fs, StreamEvent.complete sid true d], isToken a = false := by
    intro a ha
    rcases List.mem_append.mp ha with h | h
    · obtain ⟨x, _, rfl⟩ := List.mem_map.mp h; rfl
    · simp only [List.mem_cons, List.not_mem_nil, or_false] at h
      rcases h with rfl | rfl <;> rfl
  have hArtFreePre : ∀ a ∈ [StreamEvent.start sid, StreamEvent.step (thoughtStep um)]
      ++ chunks.map StreamEvent.token, isArtifactEv a = false := by
    intro a ha
    rcases List.mem_append.mp ha with h | h
    · simp only [List.mem_cons, List.not_mem_nil, or_false] at h
      rcases h with rfl | rfl <;> rfl
    · obtain ⟨x, _, rfl⟩ := List.mem_map.mp h; rfl
  refine ⟨?_, ?_, ?_, ?_, ?_⟩
  · simp only [hsh]
    exact precedes_across_append _ _ _ _ hTokFree hArtFreePre
  · have hsh2 : stream_execute um sid chunks none d
        = (([StreamEvent.start sid, StreamEvent.step (thoughtStep um)]
            ++ chunks.map StreamEvent.token) ++ arts.map StreamEvent.artifact)
          ++ [StreamEvent.step fs, StreamEvent.complete sid true d] := by
      rw [hsh]; simp [List.append_assoc]
    have hArtFreeTail : ∀ a ∈ [StreamEvent.step fs, StreamEvent.complete sid true d],
        isArtifactEv a = false := by
      intro a ha
      simp only [List.mem_cons, List.not_mem_nil, or_false] at ha
      rcases ha with rfl | rfl <;> rfl
    have hFinFree : ∀ a ∈ ([StreamEvent.start sid, StreamEvent.step (thoughtStep um)]
        ++ chunks.map StreamEvent.token) ++ arts.map StreamEvent.artifact,
        isFinalOrComplete a = false := by
      intro a ha
      rcases List.mem_append.mp ha with h | h
      · rcases List.mem_append.mp h with h2 | h2
        · simp only [List.mem_cons, List.not_mem_nil, or_false] at h2
          rcases h2 with rfl | rfl <;> rfl
        · obtain ⟨x, _, rfl⟩ := List.mem_map.mp h2; rfl
      · obtain ⟨x, _, rfl⟩ := List.mem_map.mp h; rfl
    simp only [hsh2]
    exact precedes_across_append _ _ _ _ hArtFreeTail hFinFree
  · conv_lhs => rw [hsh]
    unfold tokenConcat
    rw [List.foldl_append, List.foldl_append, List.foldl_append]
    have hpre : List.foldl tokenStep ""
        [StreamEvent.start sid, StreamEvent.step (thoughtStep um)] = "" := rfl
    rw [hpre, foldl_tokenStep_map_token]
    have hTok1 : ∀ a ∈ arts.map StreamEvent.artifact, isToken a = false :=
      fun a ha => hTokFree a (List.mem_append.mpr (Or.inl ha))
    have hTok2 : ∀ a ∈ [StreamEvent.step fs, StreamEvent.complete sid true d],
        isToken a = false :=
      fun a ha => hTokFree a (List.mem_append.mpr (Or.inr ha))
    rw [foldl_tokenStep_no_token _ hTok1, foldl_tokenStep_no_token _ hTok2]
  · have hsh3 : stream_execute um sid chunks none d
        = (([StreamEvent.start sid, StreamEvent.step (thoughtStep um)]
            ++ chunks.map StreamEvent.token)
           ++ (arts.map StreamEvent.artifact ++ [StreamEvent.step fs]))
          ++ [StreamEvent.complete sid true d] := by
      rw [hsh]; simp [List.append_assoc]
    rw [hsh3, List.getLast?_concat]
  · intro e
    have hf : stream_execute um sid chunks (some e) d
        = ([StreamEvent.start sid, StreamEvent.step (thoughtStep um)]
            ++ chunks.map StreamEvent.token) ++ [StreamEvent.err e] := by
      simp [stream_execute, List.append_assoc]
    refine ⟨?_, ?_, ?_⟩
    · rw [hf, List.getLast?_concat]
    · rw [hf, List.filter_append, List.filter_append]
      have h1 : List.filter isErrEv
          [StreamEvent.start sid, StreamEvent.step (thoughtStep um)] = [] := rfl
      have h2 : (chunks.map StreamEvent.token).filter isErrEv = [] := by
        induction chunks with
        | nil => rfl
        | cons c cs ih => simp [List.filter, isErrEv, ih]
      rw [h1, h2]
      rfl
    · intro ev hev
      rw [hf] at hev
      rcases List.mem_append.mp hev with h | h
      · rcases List.mem_append.mp h with h2 | h2
        · simp only [List.mem_cons, List.not_mem_nil, or_false] at h2
          rcases h2 with rfl | rfl <;> exact ⟨rfl, rfl⟩
        · obtain ⟨x, _, rfl⟩ := List.mem_map.mp h2; exact ⟨rfl, rfl⟩
      · simp only [List.mem_cons, List.not_mem_nil, or_false] at h
        subst h; exact ⟨rfl, rfl⟩

/-- Witness for C4 at a concrete streaming turn whose raw response holds one
artifact tag split across two chunks: the token at index 2 precedes the
artifact at index 4, the token contents reassemble the raw text, and the
failing variant ends in the error event. -/
theorem claim_C4_stream_event_order_witness :
    (2 : Nat) < 4
    ∧ tokenConcat (stream_execute "m" "s" ["x<artifact type=\"t\">b", "</artifact>y"] none 7)
        = "x<artifact type=\"t\">b</artifact>y"
    ∧ (stream_execute "m" "s" ["x<artifact type=\"t\">b", "</artifact>y"] none 7).getLast?
        = some (StreamEvent.complete "s" true 7)
    ∧ (stream_execute "m" "s" ["x<artifact type=\"t\">b", "</artifact>y"] (some "boom") 7).getLast?
        = some (StreamEvent.err "boom") := by
  obtain ⟨h1, h2, h3, h4, h5⟩ :=
    claim_C4_stream_event_order "m" "s" ["x<artifact type=\"t\">b", "</artifact>y"] 7
  exact ⟨h1 2 4 (by decide) (by decide) (by decide) (by decide),
         by rw [h3]; decide, h4, (h5 "boom").1⟩

/-- Witness for C9 at a concrete successful turn. -/
theorem claim_C9_iteration_count_witness :
    (execute "hi" "s" (Except.ok "resp") 5).success = true
    ∧ (execute "hi" "s" (Except.ok "resp") 5).iteration_count
      = ((execute "hi" "s" (Except.ok "resp") 5).steps.filter
          (fun s => s.type = StepType.action)).length :=
  ⟨by decide, claim_C9_iteration_count "hi" "s" (Except.ok "resp") 5 (by decide)⟩

theorem readCell_writeCell (h : MetaHeap) (r : Nat) (v : List (String × String))
    (hr : r < h.cells.length) : readCell (writeCell h r v) r = v := by
  simp only [readCell, writeCell, List.getD]
  rw [List.get?_eq_getElem?, List.getElem?_set_eq_of_lt v hr]
  rfl

/-- C5 counterexample: a concrete session snapshot taken with `to_dict`
changes when the canonical artifact's metadata mapping is later updated in
place, because the snapshot's `metadata` entry is the same dict object. -/
theorem claim_C5_snapshot_counterexample :
    snapMeta (metaUpdateInPlace sampleHeap sampleObjA [("k", "new")])
        (artifactToDict sampleObjA)
      ≠ snapMeta sampleHeap (artifactToDict sampleObjA) := by decide

/-- C5, amended: a stored snapshot keeps the canonical artifact's top-level
field values of snapshot time (`to_dict` copies them into a fresh dict, so a
later field update on the artifact cannot reach them), but the snapshot's
metadata entry aliases the canonical artifact's metadata dict: an in-place
metadata merge after snapshot time does propagate into the stored snapshot,
whose metadata then reads as the merged mapping. -/
theorem claim_C5_snapshot_amended (h : MetaHeap) (a : ArtifactObj)
    (md : List (String × String)) (hr : a.metaRef < h.cells.length) :
    (artifactToDict a).title = a.title
    ∧ (artifactToDict a).content = a.content
    ∧ (artifactToDict a).type = a.type
    ∧ (artifactToDict a).language = a.language
    ∧ (artifactToDict a).metaRef = a.metaRef
    ∧ snapMeta (metaUpdateInPlace h a md) (artifactToDict a)
        = dictUpdate (readCell h a.metaRef) md := by
  refine ⟨rfl, rfl, rfl, rfl, rfl, ?_⟩
  exact readCell_writeCell h a.metaRef _ hr

/-- Witness for the amended C5 at the counterexample's concrete heap. -/
theorem claim_C5_snapshot_amended_witness :
    sampleObjA.metaRef < sampleHeap.cells.length
    ∧ snapMeta (metaUpdateInPlace sampleHeap sampleObjA [("k", "new")])
        (artifactToDict sampleObjA)
      = dictUpdate (readCell sampleHeap sampleObjA.metaRef) [("k", "new")] :=
  ⟨by decide,
   (claim_C5_snapshot_amended sampleHeap sampleObjA [("k", "new")]
      (by decide)).2.2.2.2.2⟩

theorem lookup_modifySession (reg : List (String × Session)) (sid : String)
    (f : Session → Session) :
    List.lookup sid (modifySession reg sid f) = (List.lookup sid reg).map f := by
  induction reg with
  | nil => rfl
  | cons p ps ih =>
    obtain ⟨k, s⟩ := p
    by_cases hk : k = sid
    · subst hk
      have hstep : modifySession ((k, s) :: ps) k f = (k, f s) :: modifySession ps k f := by
        simp [modifySession]
      rw [hstep]
      simp [List.lookup]
    · have hstep : modifySession ((k, s) :: ps) sid f
          = (k, s) :: modifySession ps sid f := by
        simp [modifySession, hk]
      rw [hstep]
      have hbeq : (sid == k) = false :=
        beq_eq_false_iff_ne.mpr (fun hx => hk hx.symm)
      simp [List.lookup, hbeq, ih]

theorem lookup_append_left_none {β : Type} :
    ∀ (l1 l2 : List (String × β)) (a : String), List.lookup a l1 = none →
      List.lookup a (l1 ++ l2) = List.lookup a l2 := by
  intro l1
  induction l1 with
  | nil => intro l2 a _; rfl
  | cons p ps ih =>
    intro l2 a h
    obtain ⟨k, b⟩ := p
    simp only [List.cons_append, List.lookup] at h ⊢
    cases hbeq : a == k with
    | true => rw [hbeq] at h; simp at h
    | false => rw [hbeq] at h; exact ih l2 a h

theorem lookup_initSessionIfAbsent (reg : List (String × Session)) (sid t : String) :
    ∃ s : Session, List.lookup sid (initSessionIfAbsent reg sid t) = some s
      ∧ (List.lookup sid reg = some s
         ∨ (List.lookup sid reg = none ∧ s = freshSession sid t)) := by
  cases hl : List.lookup sid reg with
  | some s =>
    refine ⟨s, ?_, Or.inl rfl⟩
    simp [initSessionIfAbsent, hl]
  | none =>
    refine ⟨freshSession sid t, ?_, Or.inr ⟨rfl, rfl⟩⟩
    simp only [initSessionIfAbsent, hl, Option.isSome_none, Bool.false_eq_true, if_false]
    rw [lookup_append_left_none _ _ _ hl]
    simp [List.lookup]

theorem initSessionIfAbsent_idem (reg : List (String × Session)) (sid t1 t2 : String) :
    initSessionIfAbsent (initSessionIfAbsent reg sid t1) sid t2
      = initSessionIfAbsent reg sid t1 := by
  cases hl : List.lookup sid reg with
  | some s =>
    have e1 : initSessionIfAbsent reg sid t1 = reg := by
      simp [initSessionIfAbsent, hl]
    rw [e1]
    simp [initSessionIfAbsent, hl]
  | none =>
    have e1 : initSessionIfAbsent reg sid t1 = reg ++ [(sid, freshSession sid t1)] := by
      simp [initSessionIfAbsent, hl]
    have hlk : List.lookup sid (reg ++ [(sid, freshSession sid t1)])
        = some (freshSession sid t1) := by
      rw [lookup_append_left_none _ _ _ hl]
      simp [List.lookup]
    rw [e1]
    simp [initSessionIfAbsent, hlk]

theorem chatTurn_lookup (reg : List (String × Session)) (sid uc : String)
    (r : AgentResponse) (tI tU tA tL : String) (s0 : Session)
    (h0 : List.lookup sid (initSessionIfAbsent reg sid tI) = some s0) :
    lookupSession (chatTurnSessions reg sid uc r tI tU tA tL) sid
      = some { s0 with
          messages := s0.messages
            ++ [{ role := "user", content := uc, timestamp := tU },
                { role := "assistant", content := r.message, timestamp := tA }],
          artifacts := s0.artifacts ++ r.artifacts,
          last_activity := some tL } := by
  unfold chatTurnSessions lookupSession
  rw [lookup_modifySession, lookup_modifySession, lookup_modifySession,
      lookup_modifySession, h0]
  simp

/-- C6: creating-or-fetching a session is idempotent — a second
create-if-absent with the same id leaves the registry unchanged — and two
successive chat turns on the same session id observe the same `created_at`,
the second turn extending (not resetting) the message and artifact
histories of the first. -/
theorem claim_C6_get_or_create_idempotent (reg : List (String × Session))
    (sid c1 c2 : String) (r1 r2 : AgentResponse)
    (ta tb tc td te tf tg th : String) :
    initSessionIfAbsent (initSessionIfAbsent reg sid ta) sid te
      = initSessionIfAbsent reg sid ta
    ∧ ∃ s1 s2,
        lookupSession (chatTurnSessions reg sid c1 r1 ta tb tc td) sid = some s1
        ∧ lookupSession
            (chatTurnSessions (chatTurnSessions reg sid c1 r1 ta tb tc td)
              sid c2 r2 te tf tg th) sid = some s2
        ∧ s2.created_at = s1.created_at
        ∧ s2.messages = s1.messages
            ++ [{ role := "user", content := c2, timestamp := tf },
                { role := "assistant", content := r2.message, timestamp := tg }]
        ∧ s2.artifacts = s1.artifacts ++ r2.artifacts := by
  refine ⟨initSessionIfAbsent_idem reg sid ta te, ?_⟩
  obtain ⟨s0, h0, _⟩ := lookup_initSessionIfAbsent reg sid ta
  have h1 := chatTurn_lookup reg sid c1 r1 ta tb tc td s0 h0
  have hb : (lookupSession (chatTurnSessions reg sid c1 r1 ta tb tc td) sid).isSome
      = true := by rw [h1]; rfl
  have hinit1 : initSessionIfAbsent (chatTurnSessions reg sid c1 r1 ta tb tc td) sid te
      = chatTurnSessions reg sid c1 r1 ta tb tc td := if_pos hb
  have h0b : List.lookup sid
      (initSessionIfAbsent (chatTurnSessions reg sid c1 r1 ta tb tc td) sid te)
      = some { s0 with
          messages := s0.messages
            ++ [{ role := "user", content := c1, timestamp := tb },
                { role := "assistant", content := r1.message, timestamp := tc }],
          artifacts := s0.artifacts ++ r1.artifacts,
          last_activity := some td } := by
    rw [hinit1]; exact h1
  have h2 := chatTurn_lookup (chatTurnSessions reg sid c1 r1 ta tb tc td)
    sid c2 r2 te tf tg th _ h0b
  exact ⟨_, _, h1, h2, rfl, rfl, rfl⟩

theorem lookup_append_str (l1 l2 : List (String × String)) (k : String) :
    List.lookup k (l1 ++ l2)
      = match List.lookup k l1 with
        | some v => some v
        | none => List.lookup k l2 := by
  induction l1 with
  | nil => rfl
  | cons p ps ih =>
    obtain ⟨k1, v1⟩ := p
    simp only [List.cons_append, List.lookup]
    cases hbeq : k == k1 with
    | true => rfl
    | false => exact ih

theorem lookup_map_overwrite (old new : List (String × String)) (k : String) :
    List.lookup k (old.map (fun kv => (kv.1, (List.lookup kv.1 new).getD kv.2)))
      = (List.lookup k old).map (fun v => (List.lookup k new).getD v) := by
  induction old with
  | nil => rfl
  | cons p ps ih =>
    obtain ⟨k1, v1⟩ := p
    simp only [List.map_cons, List.lookup]
    cases hbeq : k == k1 with
    | true =>
      have hk : k = k1 := by simpa using hbeq
      subst hk
      rfl
    | false => exact ih

theorem lookup_filter_notin (old new : List (String × String)) (k : String)
    (h : List.lookup k old = none) :
    List.lookup k (new.filter (fun kv => (List.lookup kv.1 old).isNone))
      = List.lookup k new := by
  induction new with
  | nil => rfl
  | cons p ps ih =>
    obtain ⟨k1, v1⟩ := p
    by_cases hg : (List.lookup k1 old).isNone = true
    · rw [List.filter_cons_of_pos (by simpa using hg)]
      simp only [List.lookup]
      cases hbeq : k == k1 with
      | true => rfl
      | false => exact ih
    · rw [List.filter_cons_of_neg (by simpa using hg)]
      have hne : (k == k1) = false := by
        cases hbeq : k == k1 with
        | false => rfl
        | true =>
          have hk : k = k1 := by simpa using hbeq
          subst hk
          rw [h] at hg
          simp at hg
      simp only [List.lookup, hne]
      exact ih

theorem lookup_dictUpdate (old new : List (String × String)) (k : String) :
    List.lookup k (dictUpdate old new)
      = match List.lookup k new with
        | some v => some v
        | none => List.lookup k old := by
  unfold dictUpdate
  rw [lookup_append_str, lookup_map_overwrite]
  cases ho : List.lookup k old with
  | some v => cases hn : List.lookup k new <;> simp [hn]
  | none =>
    rw [lookup_filter_notin old new k ho]
    cases hn : List.lookup k new <;> simp [hn]

theorem find?_map_replace (aid : String) (a2 : ArtifactData)
    (h2 : (a2.id == aid) = true) :
    ∀ (l : List ArtifactData) (a : ArtifactData),
      l.find? (fun b => b.id == aid) = some a →
      (l.map (fun b => if b.id == aid then a2 else b)).find? (fun b => b.id == aid)
        = some a2 := by
  intro l
  induction l with
  | nil => intro a h; simp [List.find?] at h
  | cons b bs ih =>
    intro a h
    by_cases hb : (b.id == aid) = true
    · simp only [List.map_cons, if_pos hb]
      simp only [List.find?, h2]
    · have hbf : (b.id == aid) = false := by simpa using hb
      simp only [List.map_cons, if_neg hb]
      simp only [List.find?, hbf] at h ⊢
      exact ih a h

theorem mem_map_replace_of_ne (aid : String) (a2 : ArtifactData)
    (l : List ArtifactData) (b : ArtifactData) (hb : b ∈ l)
    (hne : (b.id == aid) = false) :
    b ∈ l.map (fun c => if c.id == aid then a2 else c) := by
  refine List.mem_map.mpr ⟨b, hb, ?_⟩
  simp [hne]

/-- C7: for an existing artifact id, the store's update merges the supplied
metadata key-wise into the existing metadata (keys of the argument win,
previously set keys not overwritten are retained), replaces content and
title wholesale exactly when provided, leaves id/created_at/session_id and
language untouched, refreshes updated_at, returns the artifact and stores
it under its id; for an unknown id it returns none and leaves the store
unchanged. -/
theorem claim_C7_update_semantics (store : List ArtifactData) (aid : String)
    (content title : Option String) (md : List (String × String)) (now : Nat) :
    (store.find? (fun a => a.id == aid) = none →
      ArtifactManager.update store aid content title (some md) now = (none, store))
    ∧ ∀ a, store.find? (fun a => a.id == aid) = some a →
        ∃ a2, ArtifactManager.update store aid content title (some md) now
            = (some a2, store.map (fun b => if b.id == aid then a2 else b))
          ∧ a2.content = content.getD a.content
          ∧ a2.title = title.getD a.title
          ∧ a2.updated_at = now
          ∧ a2.id = a.id
          ∧ a2.created_at = a.created_at
          ∧ a2.session_id = a.session_id
          ∧ a2.language = a.language
          ∧ (∀ k, List.lookup k a2.metadata
              = match List.lookup k md with
                | some v => some v
                | none => List.lookup k a.metadata)
          ∧ (ArtifactManager.update store aid content title (some md) now).2.find?
              (fun b => b.id == aid) = some a2
          ∧ ∀ b ∈ store, (b.id == aid) = false →
              b ∈ (ArtifactManager.update store aid content title (some md) now).2 := by
  constructor
  · intro hn
    simp [ArtifactManager.update, hn]
  · intro a ha
    have hupd : ArtifactManager.update store aid content title (some md) now
        = (some { a with
                  content := content.getD a.content
                  title := title.getD a.title
                  metadata := dictUpdate a.metadata md
                  updated_at := now },
           store.map (fun b => if b.id == aid then { a with
                  content := content.getD a.content
                  title := title.getD a.title
                  metadata := dictUpdate a.metadata md
                  updated_at := now } else b)) := by
      simp [ArtifactManager.update, ha]
    have hid := List.find?_some ha
    refine ⟨_, hupd, rfl, rfl, rfl, rfl, rfl, rfl, rfl,
            fun k => lookup_dictUpdate a.metadata md k, ?_, ?_⟩
    · rw [hupd]
      dsimp only
      have hid2 : ((({ a with content := content.getD a.content, title := title.getD a.title, metadata := dictUpdate a.metadata md, updated_at := now } : ArtifactData)).id == aid) = true := hid
      exact find?_map_replace aid _ hid2 store a ha
    · intro b hb hbne
      rw [hupd]
      dsimp only
      exact mem_map_replace_of_ne aid _ store b hb hbne

/-- Witness for C7: a one-artifact store, updating only the metadata merges
the new key while retaining the old one and refreshes updated_at. -/
theorem claim_C7_update_semantics_witness :
    ([({ id := "a1", metadata := [("k0", "v0")] } : ArtifactData)].find?
        (fun a => a.id == "a1")
      = some { id := "a1", metadata := [("k0", "v0")] })
    ∧ ∃ a2, (ArtifactManager.update [{ id := "a1", metadata := [("k0", "v0")] }] "a1"
          none none (some [("k1", "v1")]) 3).1 = some a2
      ∧ List.lookup "k0" a2.metadata = some "v0"
      ∧ List.lookup "k1" a2.metadata = some "v1"
      ∧ a2.updated_at = 3 := by
  refine ⟨by decide, ?_⟩
  obtain ⟨a2, hupd, _, _, hup, _, _, _, _, hmeta, _, _⟩ :=
    (claim_C7_update_semantics [{ id := "a1", metadata := [("k0", "v0")] }] "a1"
      none none [("k1", "v1")] 3).2 { id := "a1", metadata := [("k0", "v0")] } (by decide)
  refine ⟨a2, by rw [hupd], ?_, ?_, hup⟩
  · rw [hmeta "k0"]; decide
  · rw [hmeta "k1"]; decide

theorem insertByCreatedDesc_perm (a : ArtifactData) :
    ∀ l : List ArtifactData, (insertByCreatedDesc a l).Perm (a :: l) := by
  intro l
  induction l with
  | nil => exact List.Perm.refl _
  | cons b bs ih =>
    simp only [insertByCreatedDesc]
    by_cases hb : b.created_at < a.created_at
    · rw [if_pos hb]
    · rw [if_neg hb]
      exact List.Perm.trans (List.Perm.cons b ih) (List.Perm.swap a b bs)

theorem foldl_insert_perm :
    ∀ (l acc : List ArtifactData),
      (l.foldl (fun acc a => insertByCreatedDesc a acc) acc).Perm (acc ++ l) := by
  intro l
  induction l with
  | nil => intro acc; simp
  | cons a as ih =>
    intro acc
    simp only [List.foldl_cons]
    exact List.Perm.trans
      (List.Perm.trans (ih _) ((insertByCreatedDesc_perm a acc).append_right as))
      List.perm_middle.symm

theorem pySortDesc_perm (l : List ArtifactData) : (pySortDesc l).Perm l := by
  have h := foldl_insert_perm l []
  simpa [pySortDesc] using h

theorem insertByCreatedDesc_pairwise (a : ArtifactData) :
    ∀ l, List.Pairwise (fun x y => y.created_at ≤ x.created_at) l →
      List.Pairwise (fun x y => y.created_at ≤ x.created_at)
        (insertByCreatedDesc a l) := by
  intro l
  induction l with
  | nil => intro _; simp [insertByCreatedDesc]
  | cons b bs ih =>
    intro h
    rw [List.pairwise_cons] at h
    obtain ⟨hb, hbs⟩ := h
    simp only [insertByCreatedDesc]
    by_cases hcmp : b.created_at < a.created_at
    · rw [if_pos hcmp]
      rw [List.pairwise_cons]
      refine ⟨?_, List.pairwise_cons.mpr ⟨hb, hbs⟩⟩
      intro x hx
      rcases List.mem_cons.mp hx with rfl | hx2
      · exact Nat.le_of_lt hcmp
      · exact Nat.le_trans (hb x hx2) (Nat.le_of_lt hcmp)
    · rw [if_neg hcmp]
      rw [List.pairwise_cons]
      refine ⟨?_, ih hbs⟩
      intro x hx
      have hx2 : x = a ∨ x ∈ bs := by
        have hmem := (insertByCreatedDesc_perm a bs).mem_iff.mp hx
        simpa using hmem
      rcases hx2 with rfl | hx2
      · exact Nat.le_of_not_lt hcmp
      · exact hb x hx2

theorem foldl_insert_pairwise :
    ∀ (l acc : List ArtifactData),
      List.Pairwise (fun x y => y.created_at ≤ x.created_at) acc →
      List.Pairwise (fun x y => y.created_at ≤ x.created_at)
        (l.foldl (fun acc a => insertByCreatedDesc a acc) acc) := by
  intro l
  induction l with
  | nil => intro acc h; exact h
  | cons a as ih =>
    intro acc h
    simp only [List.foldl_cons]
    exact ih _ (insertByCreatedDesc_pairwise a acc h)

theorem pySortDesc_pairwise (l : List ArtifactData) :
    List.Pairwise (fun x y => y.created_at ≤ x.created_at) (pySortDesc l) :=
  foldl_insert_pairwise l [] List.Pairwise.nil

/-- C8 counterexample: the export record's count field is named
`artifact_count`, not `count`; moreover for the empty-string session id the
truthiness test skips the filter, so the exported count can differ from the
number of artifacts whose `session_id` equals the requested id. -/
theorem claim_C8_export_counterexample :
    ((ArtifactManager.export_session [] "s" "t").map Prod.fst)
      ≠ ["session_id", "count", "artifacts", "exported_at"]
    ∧ List.lookup "count" (ArtifactManager.export_session [] "s" "t") = none
    ∧ ((ArtifactManager.export_session [] "s" "t").map Prod.fst)
      = ["session_id", "artifact_count", "artifacts", "exported_at"]
    ∧ List.lookup "artifact_count"
        (ArtifactManager.export_session [sampleArtifactX] "" "t")
      = some (ExportVal.nat 1)
    ∧ ([sampleArtifactX].filter (fun a => a.session_id == some "")).length = 0 := by
  decide

/-- C8, amended: `export_session(id)` returns a record with exactly the
fields `session_id`, `artifact_count`, `artifacts` and `exported_at`; for a
nonempty id, `artifact_count` equals the number of artifacts in the store
whose `session_id` equals the id, and `artifacts` lists exactly those
artifacts sorted by creation time descending (the empty-string id disables
the session filter, exporting every artifact). -/
theorem claim_C8_export_amended (store : List ArtifactData) (sid nowIso : String)
    (hs : sid ≠ "") :
    ((ArtifactManager.export_session store sid nowIso).map Prod.fst)
      = ["session_id", "artifact_count", "artifacts", "exported_at"]
    ∧ List.lookup "session_id" (ArtifactManager.export_session store sid nowIso)
        = some (ExportVal.str sid)
    ∧ List.lookup "exported_at" (ArtifactManager.export_session store sid nowIso)
        = some (ExportVal.str nowIso)
    ∧ List.lookup "artifact_count" (ArtifactManager.export_session store sid nowIso)
        = some (ExportVal.nat
            (store.filter (fun a => a.session_id == some sid)).length)
    ∧ ∃ l, List.lookup "artifacts" (ArtifactManager.export_session store sid nowIso)
          = some (ExportVal.arts l)
        ∧ l.Perm (store.filter (fun a => a.session_id == some sid))
        ∧ List.Pairwise (fun x y => y.created_at ≤ x.created_at) l := by
  have ht : truthyOpt (some sid) = true := by
    simp [truthyOpt, hs]
  have hlist : ArtifactManager.list_all store (some sid)
      = pySortDesc (store.filter (fun a => a.session_id == some sid)) := by
    simp [ArtifactManager.list_all, ht]
  have hlen : (ArtifactManager.list_all store (some sid)).length
      = (store.filter (fun a => a.session_id == some sid)).length := by
    rw [hlist]
    exact (pySortDesc_perm _).length_eq
  refine ⟨rfl, rfl, rfl, ?_, ?_⟩
  · have hc : List.lookup "artifact_count"
        (ArtifactManager.export_session store sid nowIso)
        = some (ExportVal.nat (ArtifactManager.list_all store (some sid)).length) := rfl
    rw [hc, hlen]
  · refine ⟨ArtifactManager.list_all store (some sid), rfl, ?_, ?_⟩
    · rw [hlist]
      exact pySortDesc_perm _
    · rw [hlist]
      exact pySortDesc_pairwise _

/-- Witness for the amended C8: one artifact of session `x`, exported under
the nonempty id `x`, is counted. -/
theorem claim_C8_export_amended_witness :
    ("x" : String) ≠ ""
    ∧ List.lookup "artifact_count"
        (ArtifactManager.export_session [sampleArtifactX] "x" "t")
      = some (ExportVal.nat 1) := by
  refine ⟨by decide, ?_⟩
  obtain ⟨_, _, _, hcount, _⟩ :=
    claim_C8_export_amended [sampleArtifactX] "x" "t" (by decide)
  rw [hcount]
  decide

/-- C10: a chat request whose content is empty or longer than 10000
characters fails the request-model validation: the endpoint answers with a
validation error, the session registry is untouched, and the result does not
depend on the agent at all — the execution loop is never invoked. -/
theorem claim_C10_length_validation (agentRun agentRun2 : String → AgentResponse)
    (reg : List (String × Session)) (content sid : String)
    (ts : String × String × String × String)
    (h : content.length = 0 ∨ content.length > 10000) :
    postChat agentRun reg content sid ts = ChatHttpResult.validationError
    ∧ postChat agentRun reg content sid ts = postChat agentRun2 reg content sid ts := by
  have hv : validChatContent content = false := by
    rcases h with h | h <;> simp [validChatContent] <;> omega
  constructor
  · simp [postChat, hv]
  · simp [postChat, hv]

/-- Witness for C10 at the empty message. -/
theorem claim_C10_length_validation_witness :
    ("" : String).length = 0
    ∧ postChat (fun m => { session_id := "s", success := true, message := m })
        [] "" "sid" ("a", "b", "c", "d") = ChatHttpResult.validationError :=
  ⟨rfl,
   (claim_C10_length_validation
      (fun m => { session_id := "s", success := true, message := m })
      (fun _ => { session_id := "s", success := false, message := "" })
      [] "" "sid" ("a", "b", "c", "d") (Or.inl rfl)).1⟩

end AIAgents
